import Mathlib

/-!
# Verification of the rule-reconciliation engine of `azure_access_manager.py`

A shallow embedding of the decision logic of `src/azure_access_manager.py`:
rule matching (`port_matches`, `source_matches`, `check_existing_allow_rule`),
duplicate detection (`get_rule_signature`, `find_duplicate_rules`), priority
allocation (`find_available_priority`), OS classification (`detect_vm_os`),
and the control flow of the reconciliation loops
(`remove_duplicate_rules` / `add_access_rule_to_nsg` / `process_vm` / batch).

Python strings are embedded as Lean `String`; the string helpers the code
relies on (`str.lower`, `str.strip`, `str.split`, `in`, `int(...)`, and the
IPv4 semantics of the `ipaddress` standard-library module used by
`source_matches`) are implemented below over `List Char` so that every
definition evaluates inside the kernel.  The models are ASCII-faithful: the
rule fields the program reads are ASCII Azure identifiers, addresses and
port numbers.
-/

/-! ## String primitives (models of the Python built-ins the source uses) -/

/-- ASCII model of Python `str.lower` on a single character. -/
def charLower (c : Char) : Char :=
  if 'A' ≤ c ∧ c ≤ 'Z' then Char.ofNat (c.toNat + 32) else c

/-- ASCII model of Python `str.lower`. -/
def lowerStr (s : String) : String :=
  String.mk (s.data.map charLower)

/-- The whitespace characters Python `str.strip` / `int` remove (ASCII). -/
def isSpaceChar (c : Char) : Bool :=
  c = ' ' ∨ c = '\t' ∨ c = '\n' ∨ c = '\r' ∨ c = '\x0b' ∨ c = '\x0c'

/-- Strip leading and trailing whitespace from a character list. -/
def trimList (l : List Char) : List Char :=
  ((l.dropWhile isSpaceChar).reverse.dropWhile isSpaceChar).reverse

/-- Model of Python `str.strip()`. -/
def strTrim (s : String) : String :=
  String.mk (trimList s.data)

/-- Model of Python `s.split(sep)` for a one-character separator:
splits at every occurrence, keeping empty pieces. -/
def splitChar (c : Char) : List Char → List (List Char)
  | [] => [[]]
  | x :: xs =>
    match splitChar c xs with
    | [] => [[]]
    | g :: gs => if x = c then [] :: g :: gs else (x :: g) :: gs

/-- Model of Python `s.split(sep, 1)` when the separator occurs:
the part before the first occurrence and the part after it. -/
def splitFirst (c : Char) : List Char → Option (List Char × List Char)
  | [] => none
  | x :: xs =>
    if x = c then some ([], xs)
    else (splitFirst c xs).map (fun p => (x :: p.1, p.2))

/-- Value of a list of decimal digits. -/
def natOfDigits (l : List Char) : Nat :=
  l.foldl (fun acc c => acc * 10 + (c.toNat - 48)) 0

/-- Model of Python `pat in hay` on strings (substring containment). -/
def containsSub (hay pat : List Char) : Bool :=
  match hay with
  | [] => pat.isEmpty
  | _ :: t => pat.isPrefixOf hay || containsSub t pat

/-- Model of Python `int(s)` (ASCII): surrounding whitespace allowed, one
optional sign, then decimal digits with single underscores between digits. -/
def pyIntDigits (l : List Char) : Option Nat :=
  if l = [] then none
  else if l.head? = some '_' ∨ l.getLast? = some '_' then none
  else if l.all (fun c => c.isDigit || c = '_') = false then none
  else if (l.zip l.tail).any (fun p => p.1 = '_' ∧ p.2 = '_') then none
  else some (natOfDigits (l.filter (fun c => c ≠ '_')))

/-- Model of Python `int(s)` on a character list. -/
def pyIntList (l : List Char) : Option Int :=
  match trimList l with
  | '+' :: rest => (pyIntDigits rest).map Int.ofNat
  | '-' :: rest => (pyIntDigits rest).map (fun n => -(n : Int))
  | t => (pyIntDigits t).map Int.ofNat

/-- Model of Python `int(s)` on a string. -/
def pyInt (s : String) : Option Int :=
  pyIntList s.data

/-! ## IPv4 parsing: the behaviour of the Python `ipaddress` module that
`source_matches` delegates to (`ip_address`, `ip_network(strict=False)` and
subnet membership), modelled for IPv4 in the prefix-length notation the
program handles.  An address is its 32-bit numeric value. -/

/-- One dotted-quad octet, with Python `ipaddress`'s rules: decimal digits
only, at most three of them, no leading zero, value at most 255. -/
def parseOctet (l : List Char) : Option Nat :=
  if l = [] then none
  else if l.all Char.isDigit = false then none
  else if 3 < l.length then none
  else if 1 < l.length ∧ l.head? = some '0' then none
  else if 255 < natOfDigits l then none
  else some (natOfDigits l)

/-- Model of `ipaddress.ip_address` on an IPv4 dotted-quad string. -/
def parseIPv4List (l : List Char) : Option Nat :=
  match splitChar '.' l with
  | [a, b, c, d] =>
    match parseOctet a, parseOctet b, parseOctet c, parseOctet d with
    | some x, some y, some z, some w => some (((x * 256 + y) * 256 + z) * 256 + w)
    | _, _, _, _ => none
  | _ => none

/-- `ipaddress.ip_address` on a string (IPv4). -/
def parseIPv4 (s : String) : Option Nat :=
  parseIPv4List s.data

/-- A CIDR prefix length: decimal digits, value at most 32. -/
def parsePrefixLen (l : List Char) : Option Nat :=
  if l = [] then none
  else if l.all Char.isDigit = false then none
  else if 32 < natOfDigits l then none
  else some (natOfDigits l)

/-- Model of `ipaddress.ip_network(s, strict=False)` for IPv4: at most one
`/`; no prefix part means `/32`.  Host bits are irrelevant because
membership below masks them off. -/
def ipNetworkOf (s : String) : Option (Nat × Nat) :=
  match splitChar '/' s.data with
  | [a] => (parseIPv4List a).map (fun ip => (ip, 32))
  | [a, p] =>
    match parseIPv4List a, parsePrefixLen p with
    | some ip, some pl => some (ip, pl)
    | _, _ => none
  | _ => none

/-- `ip in ip_network(net, strict=False)`: the target address parses and
agrees with the network address on the top `prefixlen` bits. -/
def cidrCovers (net ip : String) : Bool :=
  match ipNetworkOf net, parseIPv4 ip with
  | some (na, pl), some a => decide (na / 2 ^ (32 - pl) = a / 2 ^ (32 - pl))
  | _, _ => false

/-! ## The Rule record

An NSG rule as the program reads it: a JSON object whose fields may be
absent (`Option`), with the two multi-valued fields defaulting to `[]`
(the code reads them with `rule.get(...) or []`). -/

structure Rule where
  name : Option String := none
  priority : Option Int := none
  direction : Option String := none
  access : Option String := none
  protocol : Option String := none
  sourceAddressPrefix : Option String := none
  sourcePortRange : Option String := none
  destinationAddressPrefix : Option String := none
  destinationPortRange : Option String := none
  sourceAddressPrefixes : List String := []
  destinationPortRanges : List String := []
deriving DecidableEq, Repr

/-- `rule.get(field, "").lower()`. -/
def lowerField (o : Option String) : String :=
  lowerStr (o.getD "")

/-- The sort key `rule.get("priority", 9999)` used by the program's
`sorted(...)` calls. -/
def prioKey (r : Rule) : Int :=
  r.priority.getD 9999

/-! ## Matcher: `port_matches` and `source_matches`
(src/azure_access_manager.py lines 1178-1242) -/

/-- The try-block of `port_matches`: `int(low) <= int(target_port) <=
int(high)` with any conversion failure caught as non-covering. -/
def rangeCovers (lo hi : List Char) (target_port : String) : Bool :=
  match pyIntList lo, pyInt target_port, pyIntList hi with
  | some l, some t, some h => decide (l ≤ t ∧ t ≤ h)
  | _, _, _ => false

/-- `port_matches(rule_port, target_port)`: wildcard, exact match, or a
`low-high` range tested with Python `int` comparisons; malformed input is
non-covering. -/
def port_matches (rule_port target_port : String) : Bool :=
  if rule_port = "" then false
  else
    let rp := strTrim rule_port
    if rp = "*" then true
    else if rp = target_port then true
    else
      match splitFirst '-' rp.data with
      | none => false
      | some (lo, hi) => rangeCovers lo hi target_port

/-- `source_matches(rule_source, source_ip)`: the literal wildcards, exact
equality, the `<ip>/32` form, or CIDR subnet membership; malformed CIDR is
non-covering. -/
def source_matches (rule_source source_ip : String) : Bool :=
  if rule_source = "" then false
  else
    let rs := strTrim rule_source
    if rs = "*" ∨ rs = "Internet" ∨ rs = "Any" then true
    else if rs = source_ip then true
    else if rs = source_ip ++ "/32" then true
    else if rs.data.contains '/' then cidrCovers rs source_ip
    else false

/-! ## Signature and duplicate detection
(src/azure_access_manager.py lines 1077-1133) -/

/-- A rule signature: the 7-tuple of lowercased scalar fields
`get_rule_signature` returns. -/
abbrev RuleSig : Type :=
  String × String × String × String × String × String × String

/-- `get_rule_signature(rule)`. -/
def get_rule_signature (r : Rule) : RuleSig :=
  ( lowerField r.direction
  , lowerField r.access
  , lowerField r.protocol
  , lowerField r.sourceAddressPrefix
  , lowerField r.sourcePortRange
  , lowerField r.destinationAddressPrefix
  , lowerField r.destinationPortRange )

/-- The relation `sorted(rules, key=lambda r: r.get("priority", 9999))`
sorts by.  Python's sort is stable, as is `List.insertionSort`. -/
def prioLE (a b : Rule) : Prop :=
  prioKey a ≤ prioKey b

instance : DecidableRel prioLE := fun a b => Int.decLe (prioKey a) (prioKey b)

instance : IsTotal Rule prioLE := ⟨fun a b => Int.le_total (prioKey a) (prioKey b)⟩

instance : IsTrans Rule prioLE := ⟨fun _ _ _ h h' => le_trans h h'⟩

/-- The program's `sorted(rules, key=lambda r: r.get("priority", 9999))`. -/
def sortByPriority (rules : List Rule) : List Rule :=
  rules.insertionSort prioLE

/-- One entry of `find_duplicate_rules`' result:
`{name, priority, kept_name, kept_priority}`. -/
structure DupEntry where
  name : Option String
  priority : Option Int
  kept_name : Option String
  kept_priority : Option Int
deriving DecidableEq, Repr

/-- `signature_map`: grouping by signature with Python-dict semantics —
keys in first-occurrence order, each group in list order. -/
def insertGroup (m : List (RuleSig × List Rule)) (s : RuleSig) (r : Rule) :
    List (RuleSig × List Rule) :=
  match m with
  | [] => [(s, [r])]
  | (s', g) :: rest =>
    if s' = s then (s', g ++ [r]) :: rest else (s', g) :: insertGroup rest s r

/-- The `signature_map` dict built by `find_duplicate_rules`. -/
def signatureMap (rules : List Rule) : List (RuleSig × List Rule) :=
  rules.foldl (fun m r => insertGroup m (get_rule_signature r) r) []

/-- The duplicates one signature group contributes: when the group has more
than one member, all but the lowest-priority one (stable sort, first kept). -/
def dupEntriesOfGroup (g : List Rule) : List DupEntry :=
  if 1 < g.length then
    match sortByPriority g with
    | [] => []
    | kept :: rest =>
      rest.map (fun d => ⟨d.name, d.priority, kept.name, kept.priority⟩)
  else []

/-- `find_duplicate_rules(existing_rules)`. -/
def find_duplicate_rules (rules : List Rule) : List DupEntry :=
  (signatureMap rules).flatMap (fun sg => dupEntriesOfGroup sg.2)

/-- Removing the marked rules from the list: the program deletes each marked
duplicate by its rule name (`az network nsg rule delete --name`). -/
def applyRemovals (rules : List Rule) : List Rule :=
  let dups := find_duplicate_rules rules
  rules.filter (fun r => dups.any (fun d => d.name = r.name) = false)

/-! ## Priority allocator (src/azure_access_manager.py lines 1053-1074) -/

/-- `find_available_priority(existing_rules, start=100, end=4096)`: the first
integer of `range(start, end)` not among the used priorities; `none` models
the `sys.exit(1)` on exhaustion.  (`end` is a Lean keyword, hence `endP`.) -/
def find_available_priority (existing_rules : List Rule)
    (start : Nat := 100) (endP : Nat := 4096) : Option Nat :=
  let used : List Int := existing_rules.map (fun r => r.priority.getD 0)
  (List.range' start (endP - start)).find? (fun p => used.contains (p : Int) = false)

/-! ## `check_existing_allow_rule` (src/azure_access_manager.py 1245-1310) -/

/-- A rule's source set covers the address: the scalar field or any entry of
the multi-valued list. -/
def ruleSourceCovers (r : Rule) (ip : String) : Bool :=
  source_matches (r.sourceAddressPrefix.getD "") ip
    || r.sourceAddressPrefixes.any (fun p => source_matches p ip)

/-- A rule's destination-port set covers the port: the scalar field or any
entry of the multi-valued list. -/
def rulePortCovers (r : Rule) (port : String) : Bool :=
  port_matches (r.destinationPortRange.getD "") port
    || r.destinationPortRanges.any (fun pr => port_matches pr port)

/-- The loop body of `check_existing_allow_rule` over the sorted rules. -/
def checkLoop (ip port : String) : List Rule → Option Rule
  | [] => none
  | r :: rest =>
    if lowerField r.direction ≠ "inbound" then checkLoop ip port rest
    else if ¬ (lowerField r.protocol = "tcp" ∨ lowerField r.protocol = "*") then
      checkLoop ip port rest
    else if ruleSourceCovers r ip = false then checkLoop ip port rest
    else if rulePortCovers r port = false then checkLoop ip port rest
    else if lowerField r.access = "allow" then some r
    else if lowerField r.access = "deny" then none
    else checkLoop ip port rest

/-- `check_existing_allow_rule(existing_rules, source_ip, port)`. -/
def check_existing_allow_rule (rules : List Rule) (ip port : String) : Option Rule :=
  checkLoop ip port (sortByPriority rules)

/-- A rule the loop considers at all: inbound, protocol TCP or wildcard. -/
def eligibleRule (r : Rule) : Bool :=
  lowerField r.direction = "inbound"
    && (lowerField r.protocol = "tcp" || lowerField r.protocol = "*")

/-- Source set and port set both cover the request. -/
def coversPair (r : Rule) (ip port : String) : Bool :=
  ruleSourceCovers r ip && rulePortCovers r port

/-- The rule decides the request one way or the other. -/
def decisiveRule (r : Rule) : Bool :=
  lowerField r.access = "allow" || lowerField r.access = "deny"

/-! ## OS classification: `detect_vm_os`
(src/azure_access_manager.py lines 723-793).

The Python function first fetches the VM record from the provider; the
embedding takes that record as input.  A configuration block's presence
(`osProfile.get("windowsConfiguration") is not None`) is a Bool field. -/

structure OsProfile where
  windowsConfiguration : Bool := false
  linuxConfiguration : Bool := false
deriving DecidableEq, Repr

structure ImageReference where
  publisher : Option String := none
  offer : Option String := none
  sku : Option String := none
deriving DecidableEq, Repr

structure OsDisk where
  osType : Option String := none
deriving DecidableEq, Repr

structure StorageProfile where
  imageReference : Option ImageReference := none
  osDisk : Option OsDisk := none
deriving DecidableEq, Repr

/-- The parts of the VM record `detect_vm_os` reads. -/
structure Vm where
  name : Option String := none
  osProfile : Option OsProfile := none
  storageProfile : Option StorageProfile := none
deriving DecidableEq, Repr

/-- The `port_config` dict of `ssh_port` / `rdp_port` overrides. -/
structure PortConfig where
  ssh_port : Option String := none
  rdp_port : Option String := none
deriving DecidableEq, Repr

/-- The dict `detect_vm_os` returns. -/
structure OsInfo where
  os_type : String
  port : String
  protocol : String
  service : String
  vm_name : String
deriving DecidableEq, Repr

/-- `windows_keywords` of strategy 3. -/
def windowsKeywords : List String :=
  ["windows", "windowsserver", "windowsdesktop", "microsoftwindows", "win"]

/-- `detect_vm_os(resource_id, port_config)` after the VM record is fetched:
strategy 1 (osProfile configuration blocks), strategy 2 (osDisk.osType),
strategy 3 (image-reference keywords), strategy 4 (default to Linux). -/
def detect_vm_os (vm : Vm) (port_config : PortConfig) : OsInfo :=
  let vm_name := vm.name.getD "unknown"
  let os_profile := vm.osProfile.getD {}
  let storage_profile := vm.storageProfile.getD {}
  let image_ref := storage_profile.imageReference.getD {}
  let os_disk := storage_profile.osDisk.getD {}
  let ssh_port := port_config.ssh_port.getD "22"
  let rdp_port := port_config.rdp_port.getD "3389"
  if os_profile.windowsConfiguration then
    ⟨"Windows", rdp_port, "Tcp", "RDP", vm_name⟩
  else if os_profile.linuxConfiguration then
    ⟨"Linux", ssh_port, "Tcp", "SSH", vm_name⟩
  else
    let os_type := lowerStr (os_disk.osType.getD "")
    if os_type = "windows" then ⟨"Windows", rdp_port, "Tcp", "RDP", vm_name⟩
    else if os_type = "linux" then ⟨"Linux", ssh_port, "Tcp", "SSH", vm_name⟩
    else
      let offer := lowerStr (image_ref.offer.getD "")
      let publisher := lowerStr (image_ref.publisher.getD "")
      let sku := lowerStr (image_ref.sku.getD "")
      if windowsKeywords.any (fun kw => containsSub offer.data kw.data)
          || windowsKeywords.any (fun kw => containsSub publisher.data kw.data)
          || windowsKeywords.any (fun kw => containsSub sku.data kw.data) then
        ⟨"Windows", rdp_port, "Tcp", "RDP", vm_name⟩
      else
        ⟨"Linux", ssh_port, "Tcp", "SSH", vm_name⟩

/-! A second definition of the classifier, following the specification's
words ("resolution order, first match wins: configuration block, OS-disk
type, image keywords, fallback to Linux; port from the override map if
present, else 22 for SSH and 3389 for RDP"), to be compared with the
definition above. -/

/-- Spec strategy 1: the explicit OS-profile configuration block. -/
def specStrategyProfile (vm : Vm) : Option String :=
  let p := vm.osProfile.getD {}
  if p.windowsConfiguration then some "Windows"
  else if p.linuxConfiguration then some "Linux"
  else none

/-- Spec strategy 2: the OS-disk type field. -/
def specStrategyOsDisk (vm : Vm) : Option String :=
  let t := lowerStr ((((vm.storageProfile.getD {}).osDisk.getD {}).osType.getD ""))
  if t = "windows" then some "Windows"
  else if t = "linux" then some "Linux"
  else none

/-- Spec strategy 3: case-insensitive keyword match against the image
publisher/offer/sku strings. -/
def specStrategyImage (vm : Vm) : Option String :=
  let ir := (vm.storageProfile.getD {}).imageReference.getD {}
  if windowsKeywords.any (fun kw =>
      containsSub (lowerStr (ir.publisher.getD "")).data kw.data
        || containsSub (lowerStr (ir.offer.getD "")).data kw.data
        || containsSub (lowerStr (ir.sku.getD "")).data kw.data) then
    some "Windows"
  else none

/-- The classifier as the specification states it. -/
def detectVmOsSpec (vm : Vm) (port_config : PortConfig) : OsInfo :=
  let os := (specStrategyProfile vm).getD
    ((specStrategyOsDisk vm).getD ((specStrategyImage vm).getD "Linux"))
  let service := if os = "Windows" then "RDP" else "SSH"
  let port :=
    if service = "RDP" then port_config.rdp_port.getD "3389"
    else port_config.ssh_port.getD "22"
  ⟨os, port, "Tcp", service, vm.name.getD "unknown"⟩

/-! ## Control flow of the reconciliation loops (for the error-handling
claim).

`run_az_command` calls `sys.exit(1)` when the CLI command fails
(src/azure_access_manager.py lines 574-621); none of the loops below it —
the duplicate-deletion loop of `remove_duplicate_rules` (1160-1166), the
per-NSG loop of `process_vm` (2029-2032) and the batch loops over selected
VMs (2308-2309, 2760-2761) — catches `SystemExit`.  The embedding tracks
the mutating commands issued before the process dies.  Provider responses
(the two rule fetches) and each command's success come from an explicit
environment; identifiers are abstracted to the NSG name. -/

/-- A mutating Azure CLI command the engine issues. -/
inductive AzCmd where
  | deleteRule (nsg : String) (name : Option String)
  | createRule (nsg : String) (priority : Nat) (source_ip : String) (port : String)
deriving DecidableEq, Repr

/-- The provider environment: the rule lists the two fetches return per NSG,
and whether each issued command succeeds. -/
structure AzEnv where
  rulesOf : String → List Rule
  rulesAfterCleanup : String → List Rule
  succeeds : AzCmd → Bool

/-- What a run did before finishing or dying: the commands issued in order,
and whether the process exited via `sys.exit(1)`. -/
structure ExecResult where
  trace : List AzCmd
  exited : Bool
deriving DecidableEq, Repr

/-- `run_az_command` on a mutating command: the command is issued; a failure
is `sys.exit(1)`. -/
def runAz (env : AzEnv) (c : AzCmd) : ExecResult :=
  ⟨[c], env.succeeds c = false⟩

/-- Sequencing: the second step runs only if the first did not exit. -/
def andThen (a b : ExecResult) : ExecResult :=
  if a.exited then a else ⟨a.trace ++ b.trace, b.exited⟩

/-- A `for` loop issuing commands in order, dying at the first failure. -/
def runAll (env : AzEnv) : List AzCmd → ExecResult
  | [] => ⟨[], false⟩
  | c :: cs => andThen (runAz env c) (runAll env cs)

/-- The marked duplicates' delete commands, in order. -/
def plannedDeletes (env : AzEnv) (nsg : String) : List AzCmd :=
  (find_duplicate_rules (env.rulesOf nsg)).map (fun d => AzCmd.deleteRule nsg d.name)

/-- `remove_duplicate_rules(nsg_name, resource_group)`: finds the duplicates
in the fetched rules and deletes each marked rule in order. -/
def remove_duplicate_rules (env : AzEnv) (nsg : String) : ExecResult :=
  runAll env (plannedDeletes env nsg)

/-- `add_access_rule_to_nsg(nsg_id, source_ip, os_info)`: cleanup, re-fetch,
skip when an existing rule already allows the access, otherwise allocate a
priority (exiting on exhaustion) and create the rule. -/
def add_access_rule_to_nsg (env : AzEnv) (nsg source_ip port : String) : ExecResult :=
  let cleanup := remove_duplicate_rules env nsg
  if cleanup.exited then cleanup
  else
    let existing := env.rulesAfterCleanup nsg
    match check_existing_allow_rule existing source_ip port with
    | some _ => ⟨cleanup.trace, false⟩
    | none =>
      match find_available_priority existing with
      | none => ⟨cleanup.trace, true⟩
      | some p => andThen cleanup (runAz env (.createRule nsg p source_ip port))

/-- The per-NSG loop of `process_vm` (lines 2029-2032): each of the VM's
NSGs in order. -/
def process_vm_nsgs (env : AzEnv) (source_ip port : String) : List String → ExecResult
  | [] => ⟨[], false⟩
  | n :: rest =>
    andThen (add_access_rule_to_nsg env n source_ip port)
      (process_vm_nsgs env source_ip port rest)

/-- One target of a batch run: its NSGs and its service port. -/
structure VmTarget where
  nsgs : List String
  port : String
deriving DecidableEq, Repr

/-- The batch loop (`for idx, vm in enumerate(selected_vms, 1):
process_vm(...)`): each selected VM in order. -/
def process_batch (env : AzEnv) (source_ip : String) : List VmTarget → ExecResult
  | [] => ⟨[], false⟩
  | v :: rest =>
    andThen (process_vm_nsgs env source_ip v.port v.nsgs)
      (process_batch env source_ip rest)

/-! ## Lemmas about the matcher loop -/

/-- The decision the loop takes on a list already sorted and filtered: find
the first covering rule that allows or denies; return it when it allows,
nothing when it denies or when no such rule exists. -/
def firstDecision (ip port : String) (l : List Rule) : Option Rule :=
  match l.find? (fun r => coversPair r ip port && decisiveRule r) with
  | some r => if lowerField r.access = "allow" then some r else none
  | none => none

lemma find?_and_of_find? {α : Type} (p q : α → Bool) (r : α) :
    ∀ l : List α, l.find? p = some r → q r = true →
      l.find? (fun x => p x && q x) = some r := by
  intro l
  induction l with
  | nil => simp
  | cons a t ih =>
    intro h hq
    by_cases hp : p a = true
    · rw [List.find?_cons_of_pos _ hp] at h
      injection h with h
      subst h
      rw [List.find?_cons_of_pos _ (by simp [hp, hq])]
    · rw [List.find?_cons_of_neg _ hp] at h
      rw [List.find?_cons_of_neg _ (by simp [hp])]
      exact ih h hq

lemma firstDecision_cons_skip (ip port : String) (r : Rule) (l : List Rule)
    (h : (coversPair r ip port && decisiveRule r) = false) :
    firstDecision ip port (r :: l) = firstDecision ip port l := by
  unfold firstDecision
  rw [@List.find?_cons_of_neg Rule (fun r => coversPair r ip port && decisiveRule r) r l
    (by simp [h])]

lemma firstDecision_cons_hit (ip port : String) (r : Rule) (l : List Rule)
    (h : (coversPair r ip port && decisiveRule r) = true) :
    firstDecision ip port (r :: l) =
      if lowerField r.access = "allow" then some r else none := by
  unfold firstDecision
  rw [@List.find?_cons_of_pos Rule (fun r => coversPair r ip port && decisiveRule r) r l h]

lemma checkLoop_eq_firstDecision (ip port : String) :
    ∀ l : List Rule, checkLoop ip port l = firstDecision ip port (l.filter eligibleRule) := by
  intro l
  induction l with
  | nil => simp [checkLoop, firstDecision]
  | cons r rest ih =>
    by_cases hdir : lowerField r.direction = "inbound"
    · by_cases hpro : lowerField r.protocol = "tcp" ∨ lowerField r.protocol = "*"
      · have helig : eligibleRule r = true := by
          simp only [eligibleRule, Bool.and_eq_true, Bool.or_eq_true, decide_eq_true_eq]
          exact ⟨hdir, hpro⟩
        have hfc : (r :: rest).filter eligibleRule = r :: rest.filter eligibleRule := by
          simp [List.filter_cons, helig]
        rw [hfc]
        by_cases hsrc : ruleSourceCovers r ip = true
        · by_cases hport : rulePortCovers r port = true
          · have hcov : coversPair r ip port = true := by
              simp [coversPair, hsrc, hport]
            by_cases hallow : lowerField r.access = "allow"
            · rw [firstDecision_cons_hit _ _ _ _ (by simp [hcov, decisiveRule, hallow])]
              simp [checkLoop, hdir, hpro, hsrc, hport, hallow]
            · by_cases hdeny : lowerField r.access = "deny"
              · rw [firstDecision_cons_hit _ _ _ _ (by simp [hcov, decisiveRule, hdeny])]
                simp [checkLoop, hdir, hpro, hsrc, hport, hallow, hdeny]
              · have hnd : decisiveRule r = false := by
                  simp [decisiveRule, hallow, hdeny]
                rw [firstDecision_cons_skip _ _ _ _ (by simp [hnd]), ← ih]
                simp [checkLoop, hdir, hpro, hsrc, hport, hallow, hdeny]
          · rw [firstDecision_cons_skip _ _ _ _ (by simp [coversPair, hport]), ← ih]
            simp [checkLoop, hdir, hpro, hsrc, hport]
        · rw [firstDecision_cons_skip _ _ _ _ (by simp [coversPair, hsrc]), ← ih]
          simp [checkLoop, hdir, hsrc]
      · have helig : eligibleRule r = false := by
          simp only [eligibleRule, Bool.and_eq_false_iff, Bool.or_eq_false_iff,
            decide_eq_false_iff_not]
          right
          tauto
        rw [List.filter_cons_of_neg (by simp [helig]), ← ih]
        simp [checkLoop, hdir, hpro]
    · have helig : eligibleRule r = false := by
        simp [eligibleRule, hdir]
      rw [List.filter_cons_of_neg (by simp [helig]), ← ih]
      simp [checkLoop, hdir]

/-- **C1.** For every list of rules, source address and port: order the rules
by ascending priority number and restrict them to inbound rules with
protocol Tcp or wildcard.  If the first rule of that list whose source set
and destination-port set both cover the pair is a Deny rule,
`check_existing_allow_rule` returns `none` (blocked), never a
lower-precedence matching Allow rule; if that first covering rule is an
Allow rule, it is returned; and rules that cover the pair but are neither
Allow nor Deny are skipped rather than stopping the search — the result is
always the decision of the first covering rule that allows or denies. -/
theorem check_existing_allow_rule_precedence (rules : List Rule) (ip port : String) :
    (∀ r, ((sortByPriority rules).filter eligibleRule).find?
          (fun r => coversPair r ip port) = some r →
        lowerField r.access = "deny" →
          check_existing_allow_rule rules ip port = none) ∧
    (∀ r, ((sortByPriority rules).filter eligibleRule).find?
          (fun r => coversPair r ip port) = some r →
        lowerField r.access = "allow" →
          check_existing_allow_rule rules ip port = some r) ∧
    check_existing_allow_rule rules ip port =
      firstDecision ip port ((sortByPriority rules).filter eligibleRule) := by
  have hmain : check_existing_allow_rule rules ip port =
      firstDecision ip port ((sortByPriority rules).filter eligibleRule) :=
    checkLoop_eq_firstDecision ip port (sortByPriority rules)
  refine ⟨?_, ?_, hmain⟩
  · intro r hfind hdeny
    have hdec : decisiveRule r = true := by simp [decisiveRule, hdeny]
    have h2 := find?_and_of_find? (fun r => coversPair r ip port) decisiveRule r
      ((sortByPriority rules).filter eligibleRule) hfind hdec
    rw [hmain]
    unfold firstDecision
    rw [h2]
    have : lowerField r.access ≠ "allow" := by simp [hdeny]
    simp [this]
  · intro r hfind hallow
    have hdec : decisiveRule r = true := by simp [decisiveRule, hallow]
    have h2 := find?_and_of_find? (fun r => coversPair r ip port) decisiveRule r
      ((sortByPriority rules).filter eligibleRule) hfind hdec
    rw [hmain]
    unfold firstDecision
    rw [h2]
    simp [hallow]

/-! ## Lemmas about grouping by signature -/

/-- The keys of the signature map, in insertion order. -/
def keysOf (m : List (RuleSig × List Rule)) : List RuleSig :=
  m.map Prod.fst

lemma insertGroup_cons_pos (s : RuleSig) (r : Rule) (g : List Rule)
    (rest : List (RuleSig × List Rule)) :
    insertGroup ((s, g) :: rest) s r = (s, g ++ [r]) :: rest := by
  simp [insertGroup]

lemma insertGroup_cons_neg (s t : RuleSig) (r : Rule) (g : List Rule)
    (rest : List (RuleSig × List Rule)) (h : t ≠ s) :
    insertGroup ((t, g) :: rest) s r = (t, g) :: insertGroup rest s r := by
  simp [insertGroup, h]

lemma insertGroup_keys (s : RuleSig) (r : Rule) :
    ∀ m : List (RuleSig × List Rule),
      keysOf (insertGroup m s r) = if s ∈ keysOf m then keysOf m else keysOf m ++ [s] := by
  intro m
  induction m with
  | nil => simp [insertGroup, keysOf]
  | cons e rest ih =>
    obtain ⟨t, g⟩ := e
    by_cases h : t = s
    · subst h
      simp [insertGroup_cons_pos, keysOf]
    · rw [insertGroup_cons_neg _ _ _ _ _ h]
      have hk : keysOf ((t, g) :: rest) = t :: keysOf rest := by simp [keysOf]
      have hk2 : keysOf ((t, g) :: insertGroup rest s r) = t :: keysOf (insertGroup rest s r) := by
        simp [keysOf]
      rw [hk2, ih, hk]
      by_cases hm : s ∈ keysOf rest
      · rw [if_pos hm, if_pos (List.mem_cons_of_mem t hm)]
      · have hnotc : s ∉ t :: keysOf rest := by
          intro hc
          rcases List.mem_cons.mp hc with h1 | h1
          · exact h h1.symm
          · exact hm h1
        rw [if_neg hm, if_neg hnotc]
        simp

lemma insertGroup_keys_nodup (s : RuleSig) (r : Rule)
    (m : List (RuleSig × List Rule)) (h : (keysOf m).Nodup) :
    (keysOf (insertGroup m s r)).Nodup := by
  rw [insertGroup_keys]
  by_cases hm : s ∈ keysOf m
  · simpa [hm] using h
  · rw [if_neg hm, List.nodup_append]
    exact ⟨h, List.nodup_singleton s,
      fun x hx hxs => hm ((List.mem_singleton.mp hxs) ▸ hx)⟩

lemma insertGroup_mem_self (s : RuleSig) (r : Rule) :
    ∀ m : List (RuleSig × List Rule), ∃ g, (s, g) ∈ insertGroup m s r := by
  intro m
  induction m with
  | nil => exact ⟨[r], by simp [insertGroup]⟩
  | cons e rest ih =>
    obtain ⟨t, g'⟩ := e
    by_cases h : t = s
    · subst h
      exact ⟨g' ++ [r], by rw [insertGroup_cons_pos]; exact List.mem_cons_self _ _⟩
    · obtain ⟨g, hg⟩ := ih
      exact ⟨g, by rw [insertGroup_cons_neg _ _ _ _ _ h]; exact List.mem_cons_of_mem _ hg⟩

lemma insertGroup_mem_of_ne (s : RuleSig) (r : Rule) :
    ∀ (m : List (RuleSig × List Rule)) (s' : RuleSig) (g' : List Rule),
      s' ≠ s → (s', g') ∈ m → (s', g') ∈ insertGroup m s r := by
  intro m
  induction m with
  | nil => simp
  | cons e rest ih =>
    obtain ⟨t, h0⟩ := e
    intro s' g' hne hmem
    by_cases ht : t = s
    · subst ht
      rw [insertGroup_cons_pos]
      rcases List.mem_cons.mp hmem with h | h
      · exact absurd (congrArg Prod.fst h) (by simpa using hne)
      · exact List.mem_cons_of_mem _ h
    · rw [insertGroup_cons_neg _ _ _ _ _ ht]
      rcases List.mem_cons.mp hmem with h | h
      · exact h ▸ List.mem_cons_self _ _
      · exact List.mem_cons_of_mem _ (ih s' g' hne h)

lemma insertGroup_mem_elim (s : RuleSig) (r : Rule) :
    ∀ (m : List (RuleSig × List Rule)), (keysOf m).Nodup →
      ∀ s' g', (s', g') ∈ insertGroup m s r →
        (s' ≠ s ∧ (s', g') ∈ m) ∨
        (s' = s ∧ ∃ g, (s, g) ∈ m ∧ g' = g ++ [r]) ∨
        (s' = s ∧ s ∉ keysOf m ∧ g' = [r]) := by
  intro m
  induction m with
  | nil =>
    intro _ s' g' h
    simp only [insertGroup, List.mem_singleton, Prod.mk.injEq] at h
    exact Or.inr (Or.inr ⟨h.1, by simp [keysOf], h.2⟩)
  | cons e rest ih =>
    intro hnd s' g' hmem
    obtain ⟨t, h0⟩ := e
    have hk : keysOf ((t, h0) :: rest) = t :: keysOf rest := by simp [keysOf]
    rw [hk, List.nodup_cons] at hnd
    obtain ⟨htk, hndr⟩ := hnd
    by_cases ht : t = s
    · subst ht
      rw [insertGroup_cons_pos] at hmem
      rcases List.mem_cons.mp hmem with h | h
      · have h1 : s' = t := congrArg Prod.fst h
        have h2 : g' = h0 ++ [r] := congrArg Prod.snd h
        exact Or.inr (Or.inl ⟨h1, h0, List.mem_cons_self _ _, h2⟩)
      · have hs' : s' ≠ t := by
          rintro rfl
          exact htk (by simpa [keysOf] using List.mem_map_of_mem Prod.fst h)
        exact Or.inl ⟨hs', List.mem_cons_of_mem _ h⟩
    · rw [insertGroup_cons_neg _ _ _ _ _ ht] at hmem
      rcases List.mem_cons.mp hmem with h | h
      · have h1 : s' = t := congrArg Prod.fst h
        exact Or.inl ⟨fun hc => ht ((h1 ▸ hc : t = s)), h ▸ List.mem_cons_self _ _⟩
      · rcases ih hndr s' g' h with ⟨hne, hm⟩ | ⟨heq, g, hg, he⟩ | ⟨heq, hnk, he⟩
        · exact Or.inl ⟨hne, List.mem_cons_of_mem _ hm⟩
        · exact Or.inr (Or.inl ⟨heq, g, List.mem_cons_of_mem _ hg, he⟩)
        · refine Or.inr (Or.inr ⟨heq, ?_, he⟩)
          subst heq
          rw [hk]
          intro hc
          rcases List.mem_cons.mp hc with h1 | h1
          · exact ht h1.symm
          · exact hnk h1

lemma signatureMap_append (l : List Rule) (a : Rule) :
    signatureMap (l ++ [a]) = insertGroup (signatureMap l) (get_rule_signature a) a := by
  simp [signatureMap, List.foldl_append]

/-- The three facts about `signature_map` the dedup proofs use: its keys are
distinct, each group is the filter of the input on its signature, and every
input rule's signature has a group. -/
lemma signatureMap_spec (rules : List Rule) :
    (keysOf (signatureMap rules)).Nodup ∧
    (∀ s g, (s, g) ∈ signatureMap rules →
      g = rules.filter (fun r => get_rule_signature r = s)) ∧
    (∀ r ∈ rules, ∃ g, (get_rule_signature r, g) ∈ signatureMap rules) := by
  induction rules using List.reverseRecOn with
  | nil => simp [signatureMap, keysOf]
  | append_singleton l a ih =>
    obtain ⟨ihnd, ihflt, ihmem⟩ := ih
    rw [signatureMap_append]
    refine ⟨insertGroup_keys_nodup _ _ _ ihnd, ?_, ?_⟩
    · intro s g hmem
      rcases insertGroup_mem_elim (get_rule_signature a) a (signatureMap l) ihnd s g hmem
        with ⟨hne, hm⟩ | ⟨heq, g0, hg0, he⟩ | ⟨heq, hnk, he⟩
      · rw [List.filter_append, List.filter_cons, List.filter_nil]
        have : ¬ (get_rule_signature a = s) := fun h => hne h.symm
        simp only [decide_eq_true_eq, this, if_false, List.append_nil]
        exact ihflt s g hm
      · subst heq
        rw [List.filter_append, List.filter_cons, List.filter_nil]
        simp only [decide_eq_true_eq, if_pos rfl]
        rw [he, ihflt _ g0 hg0]
        simp
      · subst heq
        rw [List.filter_append, List.filter_cons, List.filter_nil]
        simp only [decide_eq_true_eq, if_pos rfl]
        have hfe : l.filter (fun r => get_rule_signature r = get_rule_signature a) = [] := by
          rw [List.filter_eq_nil_iff]
          intro x hx
          simp only [decide_eq_true_eq]
          intro hxs
          obtain ⟨g1, hg1⟩ := ihmem x hx
          rw [hxs] at hg1
          exact hnk (by simpa [keysOf] using List.mem_map_of_mem Prod.fst hg1)
        rw [he, hfe]
        simp
    · intro r hr
      rcases List.mem_append.mp hr with hrl | hra
      · obtain ⟨g, hg⟩ := ihmem r hrl
        by_cases hsig : get_rule_signature r = get_rule_signature a
        · rw [hsig]
          exact insertGroup_mem_self _ _ _
        · exact ⟨g, insertGroup_mem_of_ne _ _ _ _ _ hsig hg⟩
      · have : r = a := by simpa using hra
        subst this
        exact insertGroup_mem_self _ _ _

lemma sortByPriority_perm (g : List Rule) : (sortByPriority g).Perm g :=
  List.perm_insertionSort prioLE g

lemma sortByPriority_sorted (g : List Rule) : List.Sorted prioLE (sortByPriority g) :=
  List.sorted_insertionSort prioLE g

lemma mem_find_duplicate_rules (rules : List Rule) (d : DupEntry) :
    d ∈ find_duplicate_rules rules ↔
      ∃ s g, (s, g) ∈ signatureMap rules ∧ d ∈ dupEntriesOfGroup g := by
  unfold find_duplicate_rules
  rw [List.mem_flatMap]
  constructor
  · rintro ⟨⟨s, g⟩, hm, hd⟩
    exact ⟨s, g, hm, hd⟩
  · rintro ⟨s, g, hm, hd⟩
    exact ⟨(s, g), hm, hd⟩

lemma dupEntriesOfGroup_iff (g : List Rule) (d : DupEntry) :
    d ∈ dupEntriesOfGroup g ↔
      1 < g.length ∧ ∃ kept rest, sortByPriority g = kept :: rest ∧
        ∃ x ∈ rest, d = ⟨x.name, x.priority, kept.name, kept.priority⟩ := by
  unfold dupEntriesOfGroup
  by_cases hlen : 1 < g.length
  · rw [if_pos hlen]
    have hne : sortByPriority g ≠ [] := by
      intro hcon
      have hl := (sortByPriority_perm g).length_eq
      rw [hcon] at hl
      simp only [List.length_nil] at hl
      omega
    cases hs : sortByPriority g with
    | nil => exact absurd hs hne
    | cons kept rest =>
      simp only [List.mem_map]
      constructor
      · rintro ⟨x, hx, rfl⟩
        exact ⟨hlen, kept, rest, rfl, x, hx, rfl⟩
      · rintro ⟨-, kept', rest', heq, x, hx, rfl⟩
        injection heq with h1 h2
        subst h1
        subst h2
        exact ⟨x, hx, rfl⟩
  · rw [if_neg hlen]
    simp [hlen]

/-- **C4.** Deduplication is idempotent: once the rules
`find_duplicate_rules` marks are removed (the program deletes them by
name), a second run of `find_duplicate_rules` marks nothing. -/
theorem find_duplicate_rules_idempotent (rules : List Rule) :
    find_duplicate_rules (applyRemovals rules) = [] := by
  unfold find_duplicate_rules
  rw [List.flatMap_eq_nil_iff]
  rintro ⟨s, g⟩ hsg
  obtain ⟨hnd, hflt, hmem⟩ := signatureMap_spec (applyRemovals rules)
  have hg : g = (applyRemovals rules).filter (fun r => get_rule_signature r = s) :=
    hflt s g hsg
  have hlen : g.length ≤ 1 := by
    have hgg : g = (rules.filter (fun r => get_rule_signature r = s)).filter
        (fun r => (find_duplicate_rules rules).any (fun d => d.name = r.name) = false) := by
      rw [hg]
      unfold applyRemovals
      rw [List.filter_filter, List.filter_filter]
      exact List.filter_congr (fun x _ => Bool.and_comm _ _)
    set g0 := rules.filter (fun r => get_rule_signature r = s) with hg0def
    by_cases h0 : g0.length ≤ 1
    · rw [hgg]
      exact le_trans (List.length_filter_le _ g0) h0
    · push_neg at h0
      obtain ⟨hnd0, hflt0, hmem0⟩ := signatureMap_spec rules
      have hg0ne : g0 ≠ [] := by
        intro hcon
        rw [hcon] at h0
        simp at h0
      obtain ⟨r0, hr0⟩ := List.exists_mem_of_ne_nil g0 hg0ne
      have hr0m := List.mem_filter.mp hr0
      have hr0sig : get_rule_signature r0 = s := by
        simpa using hr0m.2
      obtain ⟨g1, hg1⟩ := hmem0 r0 hr0m.1
      rw [hr0sig] at hg1
      have hg1eq : g1 = g0 := hflt0 s g1 hg1
      rw [hg1eq] at hg1
      cases hsrt : sortByPriority g0 with
      | nil =>
        have hl := (sortByPriority_perm g0).length_eq
        rw [hsrt] at hl
        simp only [List.length_nil] at hl
        omega
      | cons kept rest =>
        have hmarked : ∀ x ∈ rest,
            (⟨x.name, x.priority, kept.name, kept.priority⟩ : DupEntry) ∈
              find_duplicate_rules rules := by
          intro x hx
          exact (mem_find_duplicate_rules rules _).mpr
            ⟨s, g0, hg1, (dupEntriesOfGroup_iff g0 _).mpr
              ⟨h0, kept, rest, hsrt, x, hx, rfl⟩⟩
        have hkfalse : ∀ x ∈ rest,
            ((find_duplicate_rules rules).any (fun d => d.name = x.name) = false) = False := by
          intro x hx
          have hany : (find_duplicate_rules rules).any (fun d => d.name = x.name) = true := by
            rw [List.any_eq_true]
            exact ⟨_, hmarked x hx, by simp⟩
          simp [hany]
        have hperm : g0.Perm (kept :: rest) := by
          rw [← hsrt]
          exact (sortByPriority_perm g0).symm
        have hlfp : (g0.filter
            (fun r => (find_duplicate_rules rules).any (fun d => d.name = r.name) = false)).length
            = ((kept :: rest).filter
            (fun r => (find_duplicate_rules rules).any (fun d => d.name = r.name) = false)).length :=
          (hperm.filter _).length_eq
        have hrest : (rest.filter
            (fun r => (find_duplicate_rules rules).any (fun d => d.name = r.name) = false)) = [] := by
          rw [List.filter_eq_nil_iff]
          intro x hx
          simp only [decide_eq_true_eq]
          intro hc
          exact (hkfalse x hx) ▸ hc
        rw [hgg, hlfp, List.filter_cons]
        split
        · rw [hrest]
          simp
        · rw [hrest]
          simp
  simp only
  unfold dupEntriesOfGroup
  rw [if_neg (by omega)]

/-- The 110/120 scenario of the specification: the kept rule. -/
def exKeep110 : Rule :=
  { name := some "keep-110", priority := some 110, direction := some "Inbound",
    access := some "Allow", protocol := some "Tcp",
    sourceAddressPrefix := some "1.2.3.4", destinationPortRange := some "22" }

/-- The 110/120 scenario: the identical-signature rule at priority 120. -/
def exDup120 : Rule :=
  { exKeep110 with name := some "dup-120", priority := some 120 }

/-- **C5.** With the NSG invariant that priorities are pairwise distinct,
a rule is marked for removal by `find_duplicate_rules` exactly when some
other rule of the list has the same signature and a smaller priority key:
the non-survivors of each signature group of size greater than one are
marked, the lowest-priority member survives, and a rule with a unique
signature is never marked.  In the 110/120 scenario the rule at 120 is
marked and the rule at 110 is kept. -/
theorem find_duplicate_rules_survivors (rules : List Rule)
    (hnd : (rules.map prioKey).Nodup) (r : Rule) (hr : r ∈ rules) :
    ((∃ d ∈ find_duplicate_rules rules, d.priority = r.priority) ↔
      ∃ r' ∈ rules, get_rule_signature r' = get_rule_signature r ∧
        prioKey r' < prioKey r) ∧
    find_duplicate_rules [exKeep110, exDup120] =
      [⟨some "dup-120", some 120, some "keep-110", some 110⟩] := by
  constructor
  · constructor
    · rintro ⟨d, hd, hdp⟩
      rw [mem_find_duplicate_rules] at hd
      obtain ⟨s, g, hsg, hdg⟩ := hd
      rw [dupEntriesOfGroup_iff] at hdg
      obtain ⟨hglen, kept, rest, hsrt, x, hx, rfl⟩ := hdg
      obtain ⟨-, hflt, -⟩ := signatureMap_spec rules
      have hgf : g = rules.filter (fun r0 => get_rule_signature r0 = s) := hflt s g hsg
      have hxg : x ∈ g := by
        have hm : x ∈ sortByPriority g := hsrt ▸ List.mem_cons_of_mem kept hx
        exact (sortByPriority_perm g).mem_iff.mp hm
      have hkg : kept ∈ g := by
        have hm : kept ∈ sortByPriority g := hsrt ▸ List.mem_cons_self kept rest
        exact (sortByPriority_perm g).mem_iff.mp hm
      have hxr : x ∈ rules := (List.mem_filter.mp (hgf ▸ hxg)).1
      have hkr : kept ∈ rules := (List.mem_filter.mp (hgf ▸ hkg)).1
      have hxp : x.priority = r.priority := hdp
      have hpk : prioKey x = prioKey r := by
        simp [prioKey, hxp]
      have hxeq : x = r := List.inj_on_of_nodup_map hnd hxr hr hpk
      subst hxeq
      refine ⟨kept, hkr, ?_, ?_⟩
      · have h1 := (List.mem_filter.mp (hgf ▸ hkg)).2
        have h2 := (List.mem_filter.mp (hgf ▸ hxg)).2
        rw [decide_eq_true_eq] at h1 h2
        rw [h1, h2]
      · have hle : prioLE kept x := by
          have hsorted := sortByPriority_sorted g
          rw [hsrt, List.sorted_cons] at hsorted
          exact hsorted.1 x hx
        have hne : kept ≠ x := by
          have hgnodup : ((kept :: rest).map prioKey).Nodup := by
            have hsub : g.Sublist rules := hgf ▸ List.filter_sublist rules
            have hgn : (g.map prioKey).Nodup := (hsub.map prioKey).nodup hnd
            have hpmap : ((sortByPriority g).map prioKey).Perm (g.map prioKey) :=
              (sortByPriority_perm g).map prioKey
            rw [hsrt] at hpmap
            exact hpmap.symm.nodup hgn
          intro hcon
          rw [List.map_cons, List.nodup_cons] at hgnodup
          exact hgnodup.1 (hcon ▸ List.mem_map_of_mem prioKey hx)
        have hsne : prioKey kept ≠ prioKey x := by
          intro hceq
          exact hne (List.inj_on_of_nodup_map hnd hkr hxr hceq)
        exact lt_of_le_of_ne hle hsne
    · rintro ⟨r', hr', hsig, hlt⟩
      obtain ⟨hnd0, hflt0, hmem0⟩ := signatureMap_spec rules
      obtain ⟨g, hg⟩ := hmem0 r hr
      have hgf : g = rules.filter (fun r0 => get_rule_signature r0 = get_rule_signature r) :=
        hflt0 _ _ hg
      have hrg : r ∈ g := by
        rw [hgf]
        exact List.mem_filter.mpr ⟨hr, by simp⟩
      have hr'g : r' ∈ g := by
        rw [hgf]
        exact List.mem_filter.mpr ⟨hr', by simp [hsig]⟩
      have hrne : r' ≠ r := by
        intro hc
        rw [hc] at hlt
        omega
      have hglen : 1 < g.length := by
        cases g with
        | nil => simp at hrg
        | cons a t =>
          cases t with
          | nil =>
            have h1 : r = a := by simpa using hrg
            have h2 : r' = a := by simpa using hr'g
            exact absurd (h2.trans h1.symm) hrne
          | cons b t2 => simp
      cases hsrt : sortByPriority g with
      | nil =>
        have hl := (sortByPriority_perm g).length_eq
        rw [hsrt] at hl
        simp only [List.length_nil] at hl
        omega
      | cons kept rest =>
        have hrmem : r ∈ kept :: rest := hsrt ▸ ((sortByPriority_perm g).mem_iff.mpr hrg)
        have hrrest : r ∈ rest := by
          rcases List.mem_cons.mp hrmem with hceq | h
          · exfalso
            have hr'mem : r' ∈ kept :: rest :=
              hsrt ▸ ((sortByPriority_perm g).mem_iff.mpr hr'g)
            have hsorted := sortByPriority_sorted g
            rw [hsrt, List.sorted_cons] at hsorted
            rcases List.mem_cons.mp hr'mem with hceq' | h'
            · exact hrne (hceq'.trans hceq.symm)
            · have hle := hsorted.1 r' h'
              rw [← hceq] at hle
              have : prioKey r ≤ prioKey r' := hle
              omega
          · exact h
        exact ⟨⟨r.name, r.priority, kept.name, kept.priority⟩,
          (mem_find_duplicate_rules rules _).mpr
            ⟨get_rule_signature r, g, hg,
              (dupEntriesOfGroup_iff g _).mpr ⟨hglen, kept, rest, hsrt, r, hrrest, rfl⟩⟩,
          rfl⟩
  · decide

/-- Witness for the survivors theorem: in the 110/120 scenario the rule at
priority 120 is marked (because the rule at 110 shares its signature at a
lower priority). -/
theorem find_duplicate_rules_survivors_witness :
    ∃ d ∈ find_duplicate_rules [exKeep110, exDup120], d.priority = exDup120.priority :=
  (find_duplicate_rules_survivors [exKeep110, exDup120] (by decide) exDup120
      (by decide)).1.mpr
    ⟨exKeep110, by decide, by decide, by decide⟩

/-! ## The allocator at the top of its range -/

/-- Rules occupying every priority 100..4095 — `range(start, end)` never
yields `end`, so this input exhausts everything the scan looks at while
4096 stays free. -/
def exhaustedRules : List Rule :=
  (List.range' 100 3996).map (fun (p : Nat) => { priority := some (Int.ofNat p) })

/-- Rules at priorities 100 and 101 (the specification's allocator example). -/
def exPrio100 : Rule := { priority := some 100 }

/-- Companion rule at priority 101. -/
def exPrio101 : Rule := { priority := some 101 }

/-- **C6.** `find_available_priority` scans `range(100, 4096)`, which stops
at 4095: with priorities 100..4095 all taken it reports the allocation
error (modelled `none`) even though 4096 — inside the documented 100-4096
range of custom-rule priorities, which its own docstring calls the
"maximum priority to consider" — is not used by any rule.  On
{100, 101} it returns 102 as the claim states. -/
theorem find_available_priority_range_end :
    find_available_priority exhaustedRules = none ∧
    (4096 : Int) ∉ exhaustedRules.map (fun r => r.priority.getD 0) ∧
    find_available_priority [exPrio100, exPrio101] = some 102 := by
  refine ⟨?_, ?_, by decide⟩
  · unfold find_available_priority
    rw [List.find?_eq_none]
    intro p hp
    have hmem : ((p : Nat) : Int) ∈ exhaustedRules.map (fun r => r.priority.getD 0) := by
      refine List.mem_map.mpr ⟨{ priority := some (Int.ofNat p) }, ?_, by simp⟩
      unfold exhaustedRules
      exact List.mem_map.mpr ⟨p, hp, rfl⟩
    have hc : (exhaustedRules.map (fun r => r.priority.getD 0)).contains ((p : Nat) : Int)
        = true := List.elem_iff.mpr hmem
    rw [hc]
    simp
  · intro hmem
    obtain ⟨r, hrmem, hval⟩ := List.mem_map.mp hmem
    unfold exhaustedRules at hrmem
    obtain ⟨q, hq, hre⟩ := List.mem_map.mp hrmem
    have hqv : Int.ofNat q = 4096 := by
      rw [← hre] at hval
      simpa using hval
    have hr := List.mem_range'_1.mp hq
    rw [Int.ofNat_eq_natCast] at hqv
    omega

/-! ## Two-rule computations of the deduplicator -/

lemma sortByPriority_pair (r1 r2 : Rule) :
    sortByPriority [r1, r2] =
      if prioKey r1 ≤ prioKey r2 then [r1, r2] else [r2, r1] := by
  simp [sortByPriority, List.insertionSort, List.orderedInsert, prioLE]

lemma signatureMap_pair (r1 r2 : Rule) :
    signatureMap [r1, r2] =
      if get_rule_signature r1 = get_rule_signature r2 then
        [(get_rule_signature r1, [r1, r2])]
      else [(get_rule_signature r1, [r1]), (get_rule_signature r2, [r2])] := by
  by_cases h : get_rule_signature r1 = get_rule_signature r2
  · simp [signatureMap, insertGroup, h]
  · have h' : ¬ (get_rule_signature r1 = get_rule_signature r2) := h
    simp [signatureMap, insertGroup, h']

lemma find_duplicate_rules_pair_eq (r1 r2 : Rule)
    (h : get_rule_signature r1 = get_rule_signature r2)
    (hp : prioKey r1 ≤ prioKey r2) :
    find_duplicate_rules [r1, r2] = [⟨r2.name, r2.priority, r1.name, r1.priority⟩] := by
  unfold find_duplicate_rules
  rw [signatureMap_pair, if_pos h]
  simp [dupEntriesOfGroup, sortByPriority_pair, hp]

lemma find_duplicate_rules_pair_gt (r1 r2 : Rule)
    (h : get_rule_signature r1 = get_rule_signature r2)
    (hp : ¬ prioKey r1 ≤ prioKey r2) :
    find_duplicate_rules [r1, r2] = [⟨r1.name, r1.priority, r2.name, r2.priority⟩] := by
  unfold find_duplicate_rules
  rw [signatureMap_pair, if_pos h]
  simp [dupEntriesOfGroup, sortByPriority_pair, hp]

lemma find_duplicate_rules_pair_ne (r1 r2 : Rule)
    (h : get_rule_signature r1 ≠ get_rule_signature r2) :
    find_duplicate_rules [r1, r2] = [] := by
  unfold find_duplicate_rules
  rw [signatureMap_pair, if_neg h]
  simp [dupEntriesOfGroup]

/-- **C3 (amended).** The rule signature is the 7-tuple of lowercased scalar
fields (direction, access, protocol, sourceAddressPrefix, sourcePortRange,
destinationAddressPrefix, destinationPortRange): two rules have equal
signatures — and a two-rule list is deduplicated — exactly when they agree
case-insensitively on all seven, regardless of their name, priority and the
multi-valued `sourceAddressPrefixes` / `destinationPortRanges` lists. -/
theorem get_rule_signature_components (r1 r2 : Rule) :
    (get_rule_signature r1 = get_rule_signature r2 ↔
      (lowerField r1.direction = lowerField r2.direction ∧
       lowerField r1.access = lowerField r2.access ∧
       lowerField r1.protocol = lowerField r2.protocol ∧
       lowerField r1.sourceAddressPrefix = lowerField r2.sourceAddressPrefix ∧
       lowerField r1.sourcePortRange = lowerField r2.sourcePortRange ∧
       lowerField r1.destinationAddressPrefix = lowerField r2.destinationAddressPrefix ∧
       lowerField r1.destinationPortRange = lowerField r2.destinationPortRange)) ∧
    (∀ (n : Option String) (p : Option Int) (sps dps : List String),
      get_rule_signature
        { r1 with
          name := n,
          priority := p,
          sourceAddressPrefixes := sps,
          destinationPortRanges := dps } =
      get_rule_signature r1) ∧
    (find_duplicate_rules [r1, r2] ≠ [] ↔
      get_rule_signature r1 = get_rule_signature r2) := by
  refine ⟨?_, fun n p sps dps => rfl, ?_⟩
  · simp [get_rule_signature, Prod.ext_iff]
  · constructor
    · intro hne
      by_contra hs
      exact hne (find_duplicate_rules_pair_ne r1 r2 hs)
    · intro h
      by_cases hp : prioKey r1 ≤ prioKey r2
      · rw [find_duplicate_rules_pair_eq r1 r2 h hp]
        simp
      · rw [find_duplicate_rules_pair_gt r1 r2 h hp]
        simp

/-- Two rules agreeing on the claim's five components (direction, access,
protocol, source prefix, destination port) but differing in
`sourcePortRange`: the code still distinguishes them. -/
def cexSpr80 : Rule :=
  { name := some "spr-80", priority := some 210, direction := some "Inbound",
    access := some "Allow", protocol := some "Tcp",
    sourceAddressPrefix := some "1.2.3.4", sourcePortRange := some "80",
    destinationPortRange := some "22" }

/-- As `cexSpr80` with `sourcePortRange` 443. -/
def cexSpr443 : Rule :=
  { cexSpr80 with
    name := some "spr-443",
    priority := some 220,
    sourcePortRange := some "443" }

/-- **C3, counterexample.** `cexSpr80` and `cexSpr443` agree on the claim's
five components — direction, access, protocol, source set and
destination-port set — yet their signatures differ (the code also hashes
`sourcePortRange` and `destinationAddressPrefix`) and `find_duplicate_rules`
does not treat them as duplicates of one another. -/
theorem get_rule_signature_five_components_counterexample :
    cexSpr80.direction = cexSpr443.direction ∧
    cexSpr80.access = cexSpr443.access ∧
    cexSpr80.protocol = cexSpr443.protocol ∧
    cexSpr80.sourceAddressPrefix = cexSpr443.sourceAddressPrefix ∧
    cexSpr80.sourceAddressPrefixes = cexSpr443.sourceAddressPrefixes ∧
    cexSpr80.destinationPortRange = cexSpr443.destinationPortRange ∧
    cexSpr80.destinationPortRanges = cexSpr443.destinationPortRanges ∧
    get_rule_signature cexSpr80 ≠ get_rule_signature cexSpr443 ∧
    find_duplicate_rules [cexSpr80, cexSpr443] = [] := by
  decide

/-! ## The multi-valued fields and the signature -/

/-- A rule carrying its source and port only in the multi-valued lists. -/
def mvRuleA : Rule :=
  { name := some "mv-a", priority := some 110, direction := some "Inbound",
    access := some "Allow", protocol := some "Tcp",
    sourceAddressPrefixes := ["203.0.113.7"], destinationPortRanges := ["22"] }

/-- As `mvRuleA` but for a different source address. -/
def mvRuleB : Rule :=
  { mvRuleA with
    name := some "mv-b",
    priority := some 120,
    sourceAddressPrefixes := ["198.51.100.9"] }

/-- **C10.** For rules whose scalar `sourceAddressPrefix` and
`destinationPortRange` are empty and which agree on direction, access,
protocol, `sourcePortRange` and `destinationAddressPrefix`,
`get_rule_signature` is blind to the multi-valued lists: the signatures are
equal, so `find_duplicate_rules` marks the higher-priority rule as a
duplicate of the lower — even though `check_existing_allow_rule` reads the
multi-valued lists and distinguishes such rules (`mvRuleA` grants
203.0.113.7:22, `mvRuleB` does not, yet they share one signature). -/
theorem get_rule_signature_ignores_multivalued (r1 r2 : Rule)
    (h1 : r1.sourceAddressPrefix.getD "" = "")
    (h2 : r2.sourceAddressPrefix.getD "" = "")
    (h3 : r1.destinationPortRange.getD "" = "")
    (h4 : r2.destinationPortRange.getD "" = "")
    (h5 : r1.direction = r2.direction) (h6 : r1.access = r2.access)
    (h7 : r1.protocol = r2.protocol) (h8 : r1.sourcePortRange = r2.sourcePortRange)
    (h9 : r1.destinationAddressPrefix = r2.destinationAddressPrefix) :
    get_rule_signature r1 = get_rule_signature r2 ∧
    (prioKey r1 < prioKey r2 →
      find_duplicate_rules [r1, r2] = [⟨r2.name, r2.priority, r1.name, r1.priority⟩]) ∧
    (check_existing_allow_rule [mvRuleA] "203.0.113.7" "22" = some mvRuleA ∧
     check_existing_allow_rule [mvRuleB] "203.0.113.7" "22" = none ∧
     get_rule_signature mvRuleA = get_rule_signature mvRuleB ∧
     mvRuleA.sourceAddressPrefixes ≠ mvRuleB.sourceAddressPrefixes) := by
  have hsig : get_rule_signature r1 = get_rule_signature r2 := by
    simp [get_rule_signature, lowerField, h1, h2, h3, h4, h5, h6, h7, h8, h9]
  exact ⟨hsig, fun hlt => find_duplicate_rules_pair_eq r1 r2 hsig (le_of_lt hlt),
    by decide⟩

/-- Witness: `mvRuleA`/`mvRuleB` satisfy the hypotheses, so the rule at
priority 120 is marked as a duplicate of the one at 110 although their
source lists differ. -/
theorem get_rule_signature_ignores_multivalued_witness :
    find_duplicate_rules [mvRuleA, mvRuleB] =
      [⟨some "mv-b", some 120, some "mv-a", some 110⟩] :=
  (get_rule_signature_ignores_multivalued mvRuleA mvRuleB rfl rfl rfl rfl rfl rfl
      rfl rfl rfl).2.1 (by decide)

/-! ## The classifier against its specification -/

lemma any_three_comm {α : Type} (l : List α) (f g h : α → Bool) :
    (l.any f || l.any g || l.any h) = l.any (fun x => g x || f x || h x) := by
  induction l with
  | nil => simp
  | cons a t ih =>
    simp only [List.any_cons]
    rw [← ih]
    cases f a <;> cases g a <;> cases h a <;> simp

/-- **C9.** The classifier equals its specification: strategies in order —
OS-profile configuration block, then the OS-disk type, then the
case-insensitive Windows keywords over the image publisher/offer/sku,
first match wins, Linux/SSH when all fail — with the port taken from the
override configuration when present and otherwise 22 (SSH) / 3389 (RDP),
the protocol always Tcp; classification never fails. -/
theorem detect_vm_os_matches_spec (vm : Vm) (cfg : PortConfig) :
    detect_vm_os vm cfg = detectVmOsSpec vm cfg := by
  have hne : ("Linux" : String) ≠ "Windows" := by decide
  have hkey : ∀ ir : ImageReference,
      (windowsKeywords.any (fun kw =>
          containsSub (lowerStr (ir.offer.getD "")).data kw.data)
        || windowsKeywords.any (fun kw =>
          containsSub (lowerStr (ir.publisher.getD "")).data kw.data)
        || windowsKeywords.any (fun kw =>
          containsSub (lowerStr (ir.sku.getD "")).data kw.data))
      = windowsKeywords.any (fun kw =>
          containsSub (lowerStr (ir.publisher.getD "")).data kw.data
          || containsSub (lowerStr (ir.offer.getD "")).data kw.data
          || containsSub (lowerStr (ir.sku.getD "")).data kw.data) :=
    fun ir => any_three_comm windowsKeywords _ _ _
  unfold detect_vm_os detectVmOsSpec specStrategyProfile specStrategyOsDisk specStrategyImage
  dsimp only
  rw [hkey]
  by_cases hw : (vm.osProfile.getD {}).windowsConfiguration
  · simp [hw]
  · by_cases hl : (vm.osProfile.getD {}).linuxConfiguration
    · simp [hw, hl, hne]
    · by_cases hwt : lowerStr ((((vm.storageProfile.getD {}).osDisk.getD
          {}).osType.getD "")) = "windows"
      · simp [hw, hl, hwt]
      · by_cases hlt : lowerStr ((((vm.storageProfile.getD {}).osDisk.getD
            {}).osType.getD "")) = "linux"
        · simp [hw, hl, hwt, hlt, hne]
        · by_cases hkw : windowsKeywords.any (fun kw =>
              containsSub (lowerStr ((((vm.storageProfile.getD {}).imageReference.getD
                {}).publisher.getD ""))).data kw.data
              || containsSub (lowerStr ((((vm.storageProfile.getD {}).imageReference.getD
                {}).offer.getD ""))).data kw.data
              || containsSub (lowerStr ((((vm.storageProfile.getD {}).imageReference.getD
                {}).sku.getD ""))).data kw.data) = true
          · simp [hw, hl, hwt, hlt, hkw]
          · simp [hw, hl, hwt, hlt, hkw, hne]

/-! ## The matchers against the claim's case lists -/

lemma rangeCovers_iff (lo hi : List Char) (t : String) :
    rangeCovers lo hi t = true ↔
      ∃ l tv h, pyIntList lo = some l ∧ pyInt t = some tv ∧ pyIntList hi = some h ∧
        l ≤ tv ∧ tv ≤ h := by
  unfold rangeCovers
  cases hl : pyIntList lo with
  | none => simp [hl]
  | some l =>
    cases ht : pyInt t with
    | none => simp [hl, ht]
    | some tv =>
      cases hh : pyIntList hi with
      | none => simp [hl, ht, hh]
      | some h => simp [hl, ht, hh, and_assoc]

/-- **C8 (amended).** `port_matches` covers exactly when the spec string is
nonempty and, after stripping surrounding whitespace, is `"*"`, an exact
string match with the target port, or a `low-high` range whose two parts
and the target all parse as integers with `low ≤ target ≤ high` (inclusive);
any other spec — malformed ranges included — is non-covering, never an
error.  The specification's three examples hold. -/
theorem port_matches_amended (rp t : String) :
    (port_matches rp t = true ↔
      rp ≠ "" ∧
        (strTrim rp = "*" ∨ strTrim rp = t ∨
          ∃ lo hi, splitFirst '-' (strTrim rp).data = some (lo, hi) ∧
            ∃ l tv h, pyIntList lo = some l ∧ pyInt t = some tv ∧
              pyIntList hi = some h ∧ l ≤ tv ∧ tv ≤ h)) ∧
    port_matches "1000-2000" "1500" = true ∧
    port_matches "1000-2000" "2001" = false ∧
    port_matches "*" "22" = true := by
  refine ⟨?_, by decide, by decide, by decide⟩
  unfold port_matches
  by_cases h0 : rp = ""
  · simp [h0]
  · rw [if_neg h0]
    by_cases h1 : strTrim rp = "*"
    · simp [h0, h1]
    · rw [if_neg h1]
      by_cases h2 : strTrim rp = t
      · simp [h0, h1, h2]
      · rw [if_neg h2]
        cases hsp : splitFirst '-' (strTrim rp).data with
        | none => simp [h0, h1, h2, hsp]
        | some pr =>
          obtain ⟨lo, hi⟩ := pr
          dsimp only
          rw [rangeCovers_iff]
          constructor
          · intro hc
            exact ⟨h0, Or.inr (Or.inr ⟨lo, hi, rfl, hc⟩)⟩
          · rintro ⟨-, hA | hB | ⟨lo1, hi1, hsp1, htail⟩⟩
            · exact absurd hA h1
            · exact absurd hB h2
            · injection hsp1 with hsp1
              injection hsp1 with he1 he2
              subst he1
              subst he2
              exact htail

/-- **C8, counterexample.** With the untrimmed spec `" *"` and target 22 the
code covers (it strips the spec first), yet `" *"` is not the literal `"*"`,
is no exact match with `"22"`, and contains no `-` so it has no `low-high`
form: the claim as stated — over the raw spec string — is false. -/
theorem port_matches_untrimmed_counterexample :
    port_matches " *" "22" = true ∧ " *" ≠ "*" ∧ " *" ≠ "22" ∧
      (" *".data.contains '-') = false := by
  decide

/-- **C7 (amended).** `source_matches` covers exactly when the prefix is
nonempty and, after stripping surrounding whitespace, is one of the
case-sensitive literals `"*"`, `"Internet"`, `"Any"`, or equals the target
address, or equals the target followed by `"/32"`, or contains `"/"` and
parses as a CIDR network containing the target address; a malformed CIDR is
non-covering, never an error.  The specification's three examples hold. -/
theorem source_matches_amended (rs ip : String) :
    (source_matches rs ip = true ↔
      rs ≠ "" ∧
        (strTrim rs = "*" ∨ strTrim rs = "Internet" ∨ strTrim rs = "Any" ∨
         strTrim rs = ip ∨ strTrim rs = ip ++ "/32" ∨
         ((strTrim rs).data.contains '/' = true ∧ cidrCovers (strTrim rs) ip = true))) ∧
    source_matches "10.0.0.0/24" "10.0.0.5" = true ∧
    source_matches "10.0.0.0/24" "10.0.1.5" = false ∧
    source_matches "203.0.113.9/32" "203.0.113.9" = true := by
  refine ⟨?_, by decide, by decide, by decide⟩
  unfold source_matches
  by_cases h0 : rs = ""
  · simp [h0]
  · rw [if_neg h0]
    by_cases h1 : strTrim rs = "*" ∨ strTrim rs = "Internet" ∨ strTrim rs = "Any"
    · rw [if_pos h1]
      simp only [true_iff]
      exact ⟨h0, by tauto⟩
    · rw [if_neg h1]
      push_neg at h1
      obtain ⟨hA, hB, hC⟩ := h1
      by_cases h2 : strTrim rs = ip
      · rw [if_pos h2]
        simp only [true_iff]
        exact ⟨h0, by tauto⟩
      · rw [if_neg h2]
        by_cases h3 : strTrim rs = ip ++ "/32"
        · rw [if_pos h3]
          simp only [true_iff]
          exact ⟨h0, by tauto⟩
        · rw [if_neg h3]
          by_cases h4 : (strTrim rs).data.contains '/' = true
          · rw [if_pos h4]
            constructor
            · intro hc
              exact ⟨h0, Or.inr (Or.inr (Or.inr (Or.inr (Or.inr ⟨h4, hc⟩))))⟩
            · rintro ⟨-, hd⟩
              rcases hd with h | h | h | h | h | ⟨-, h⟩ <;>
                first
                  | exact absurd h hA
                  | exact absurd h hB
                  | exact absurd h hC
                  | exact absurd h h2
                  | exact absurd h h3
                  | exact h
          · rw [if_neg h4]
            constructor
            · intro hc
              exact absurd hc (by simp)
            · rintro ⟨-, hd⟩
              rcases hd with h | h | h | h | h | ⟨h, -⟩ <;>
                first
                  | exact absurd h hA
                  | exact absurd h hB
                  | exact absurd h hC
                  | exact absurd h h2
                  | exact absurd h h3
                  | exact absurd h h4

/-- **C7, counterexample.** With the untrimmed prefix `" *"` the code covers
every address (it strips the prefix first), yet `" *"` is none of the three
literals, differs from the target, differs from the target plus `"/32"`,
and contains no `"/"`: the claim as stated — over the raw prefix string —
is false. -/
theorem source_matches_untrimmed_counterexample :
    source_matches " *" "1.2.3.4" = true ∧ " *" ≠ "*" ∧ " *" ≠ "Internet" ∧
      " *" ≠ "Any" ∧ " *" ≠ "1.2.3.4" ∧ " *" ≠ "1.2.3.4" ++ "/32" ∧
      (" *".data.contains '/') = false := by
  decide

/-! ## Failure propagation through the reconciliation loops -/

lemma runAll_stops_at_failure (env : AzEnv) (c : AzCmd) (post : List AzCmd) :
    ∀ pre : List AzCmd, (∀ c' ∈ pre, env.succeeds c' = true) →
      env.succeeds c = false →
      runAll env (pre ++ c :: post) = ⟨pre ++ [c], true⟩ := by
  intro pre
  induction pre with
  | nil =>
    intro _ hc
    simp [runAll, runAz, andThen, hc]
  | cons a t ih =>
    intro hpre hc
    have ha : env.succeeds a = true := hpre a (List.mem_cons_self _ _)
    have ht : ∀ c' ∈ t, env.succeeds c' = true :=
      fun c' hct => hpre c' (List.mem_cons_of_mem _ hct)
    simp only [List.cons_append, runAll, List.append_eq]
    rw [ih ht hc]
    simp [runAz, andThen, ha]

/-- **C2 (amended).** A failed Azure CLI command terminates the whole run
(`run_az_command` calls `sys.exit(1)` and no reconciliation loop catches
it): when the deletion of a marked duplicate fails, the run dies having
issued only the deletes up to and including the failing one — the
remaining marked duplicates are not deleted; when reconciliation of one
security group exits, the sibling groups of the same target are not
processed; and when one target's reconciliation exits, batch processing
does not move on to the next target. -/
theorem az_failure_aborts_run :
    (∀ (env : AzEnv) (nsg : String) (pre : List AzCmd) (c : AzCmd) (post : List AzCmd),
      plannedDeletes env nsg = pre ++ c :: post →
      (∀ c' ∈ pre, env.succeeds c' = true) →
      env.succeeds c = false →
      remove_duplicate_rules env nsg = ⟨pre ++ [c], true⟩) ∧
    (∀ (env : AzEnv) (n : String) (rest : List String) (ip port : String),
      (add_access_rule_to_nsg env n ip port).exited = true →
      process_vm_nsgs env ip port (n :: rest) = add_access_rule_to_nsg env n ip port) ∧
    (∀ (env : AzEnv) (ip : String) (v : VmTarget) (rest : List VmTarget),
      (process_vm_nsgs env ip v.port v.nsgs).exited = true →
      process_batch env ip (v :: rest) = process_vm_nsgs env ip v.port v.nsgs) := by
  refine ⟨?_, ?_, ?_⟩
  · intro env nsg pre c post hsplit hpre hc
    unfold remove_duplicate_rules
    rw [hsplit]
    exact runAll_stops_at_failure env c post pre hpre hc
  · intro env n rest ip port hex
    simp [process_vm_nsgs, andThen, hex]
  · intro env ip v rest hex
    simp [process_batch, andThen, hex]

/-- Three same-signature rules: the one kept after deduplication. -/
def dupRuleA : Rule :=
  { name := some "A", priority := some 100, direction := some "Inbound",
    access := some "Allow", protocol := some "Tcp",
    sourceAddressPrefix := some "9.9.9.9", destinationPortRange := some "22" }

/-- Marked duplicate whose deletion the environment fails. -/
def dupRuleB : Rule :=
  { dupRuleA with name := some "B", priority := some 110 }

/-- Marked duplicate standing after the failing one. -/
def dupRuleC : Rule :=
  { dupRuleA with name := some "C", priority := some 120 }

/-- Environment in which deleting rule "B" of NSG "g1" fails. -/
def cexEnvDelete : AzEnv :=
  { rulesOf := fun _ => [dupRuleA, dupRuleB, dupRuleC]
    rulesAfterCleanup := fun _ => []
    succeeds := fun c => c ≠ AzCmd.deleteRule "g1" (some "B") }

/-- Environment in which every rule creation fails. -/
def cexEnvCreate : AzEnv :=
  { rulesOf := fun _ => []
    rulesAfterCleanup := fun _ => []
    succeeds := fun c =>
      match c with
      | AzCmd.createRule _ _ _ _ => false
      | _ => true }

/-- **C2, counterexample.** Rule "C" is marked for deletion, but after the
deletion of "B" fails the run exits without ever issuing C's delete — the
remaining duplicates are not cleaned up best-effort; a failed rule creation
on NSG "g1" stops its sibling "g2" from being reconciled; and in batch mode
the same failure on the first target keeps the second target from being
processed, contradicting the claim at these inputs. -/
theorem reconciliation_abort_counterexample :
    (AzCmd.deleteRule "g1" (some "C") ∈ plannedDeletes cexEnvDelete "g1") ∧
    remove_duplicate_rules cexEnvDelete "g1" =
      ⟨[AzCmd.deleteRule "g1" (some "B")], true⟩ ∧
    (AzCmd.deleteRule "g1" (some "C") ∉ (remove_duplicate_rules cexEnvDelete "g1").trace) ∧
    process_vm_nsgs cexEnvCreate "198.51.100.7" "22" ["g1", "g2"] =
      ⟨[AzCmd.createRule "g1" 100 "198.51.100.7" "22"], true⟩ ∧
    process_batch cexEnvCreate "198.51.100.7" [⟨["g1"], "22"⟩, ⟨["g2"], "22"⟩] =
      ⟨[AzCmd.createRule "g1" 100 "198.51.100.7" "22"], true⟩ := by
  decide

/-- Witness for the amended abort theorem at the concrete failing
environment: the run dies on B's delete with C's delete never issued. -/
theorem az_failure_aborts_run_witness :
    remove_duplicate_rules cexEnvDelete "g1" =
      ⟨[AzCmd.deleteRule "g1" (some "B")], true⟩ :=
  az_failure_aborts_run.1 cexEnvDelete "g1" [] (AzCmd.deleteRule "g1" (some "B"))
    [AzCmd.deleteRule "g1" (some "C")] (by decide) (by decide) (by decide)
